import Mathlib

/-!
# Verification of the bakery marker-based code injection engine

This file is a shallow embedding, in Lean 4, of the marker-based code
injection core of the repository: the marker parser (`src/inject/parser.ts`),
the injection engine (`injectContent`, `deepMergeJson`, `injectJson`,
`validateNoNewMarkers` in `src/inject/engine.ts`), the error classes
(`src/utils/errors.ts`) and the injection processor
(`processSingleInjection`, `processInjections` in `src/inject/processor.ts`).

Modelling conventions:

* File contents, marker names, indents and error messages are `List Char`.
  JavaScript strings are UTF-16 code-unit sequences; for the contents the
  engine manipulates (the Basic Multilingual Plane) code points and code
  units coincide, so `List Char` with code-point indexing is faithful.
* The regular expressions of `parser.ts` are hand-compiled to total
  recursive matchers.  The character class `\s` is modelled by `isWs`
  below, covering the JavaScript whitespace set.
* JavaScript `Map` and `Set` (insertion ordered) are modelled by
  association lists / deduplicated lists preserving first-insertion order.
* JSON values are modelled by the inductive `Json`; JavaScript numbers are
  modelled as `Int` (no claim under consideration depends on float
  behaviour).  `JSON.parse` is a platform primitive, not repository code;
  the processor and `injectJson` take its outcome (`Option Json`) as an
  explicit argument.
* The filesystem is modelled as an association list from paths to
  contents, threaded explicitly through the processor.  `existsSync`
  followed by `readFileSync` is collapsed into one lookup (an I/O-level
  read fault on an existing file is not observable in a pure model).
* The EJS template renderer (`renderTemplate`) is an external collaborator
  of the core; it is passed as an opaque function argument `render`.
-/

/-! ## Generic string helpers -/

/-- Decimal digits of a natural number (auxiliary, most significant first). -/
def natToChars (n : Nat) : List Char :=
  (toString n).data

/-- Join a list of strings with a separator, as JavaScript `Array.join`. -/
def joinSep (sep : List Char) : List (List Char) → List Char
  | [] => []
  | [x] => x
  | x :: xs => x ++ sep ++ joinSep sep xs

/-- Split a character list at every occurrence of `c`, as JavaScript
`String.split`: the result is always non-empty, and a trailing separator
yields a trailing empty piece. -/
def splitOnChar (c : Char) : List Char → List (List Char)
  | [] => [[]]
  | d :: rest =>
    if d = c then [] :: splitOnChar c rest
    else
      match splitOnChar c rest with
      | [] => [[d]]
      | l :: ls => (d :: l) :: ls

/-- `content.split('\n')`. -/
def splitLines (content : List Char) : List (List Char) :=
  splitOnChar '\n' content

/-- Join lines with `'\n'`, the inverse of `splitLines` on newline-free lines. -/
def joinLines (ls : List (List Char)) : List Char :=
  joinSep ['\n'] ls

/-- Map over a list with the element index, starting at `i`. -/
def mapIdxFrom (f : Nat → List Char → List Char) : Nat → List (List Char) → List (List Char)
  | _, [] => []
  | i, a :: as => f i a :: mapIdxFrom f (i + 1) as

/-- Strip a literal from the front of a list: `some` of the remainder when
the literal is an initial segment, `none` otherwise. -/
def stripLit : List Char → List Char → Option (List Char)
  | [], l => some l
  | _ :: _, [] => none
  | p :: ps, c :: cs => if c = p then stripLit ps cs else none

/-! ## Marker recognition (`src/inject/parser.ts`)

The four dialects' regular expressions are, for style `js`:
`/^(\s*)\/\/\s*BAKERY:INJECT:([a-z0-9-]+)\s*$/` (start) and the same with
`END` (end); `python` replaces `\/\/` with `#`; `html` wraps the keyword in
`<!--` … `-->`; `css` wraps it in `\/*` … `*\/`.
-/

/-- JavaScript's `\s` character class. -/
def isWs (c : Char) : Bool :=
  c = ' ' || c = '\t' || c = '\n' || c = '\r' || c = '\x0b' || c = '\x0c' ||
  c = '\u00A0' || c = '\uFEFF' || c = '\u1680' ||
  (0x2000 ≤ c.toNat && c.toNat ≤ 0x200A) ||
  c = '\u2028' || c = '\u2029' || c = '\u202F' || c = '\u205F' || c = '\u3000'

/-- The marker-name character class `[a-z0-9-]`. -/
def isNameChar (c : Char) : Bool :=
  ('a' ≤ c && c ≤ 'z') || ('0' ≤ c && c ≤ '9') || c = '-'

/-- The four comment dialects. -/
inductive CommentStyle where
  | js
  | python
  | html
  | css
deriving DecidableEq, Repr

/-- The comment opener of each dialect. -/
def styleOpen : CommentStyle → List Char
  | .js => "//".data
  | .python => "#".data
  | .html => "<!--".data
  | .css => "/*".data

/-- The literal required after the marker name (empty for line comments). -/
def styleClose : CommentStyle → List Char
  | .js => []
  | .python => []
  | .html => "-->".data
  | .css => "*/".data

/-- Does `tail` consist of optional whitespace, the closing literal and
trailing whitespace only (`\s*CLOSE\s*$`)? -/
def closeAndWs (close tail : List Char) : Bool :=
  match stripLit close (tail.dropWhile isWs) with
  | some r => r.all isWs
  | none => false

/-- Backtracking choice of the marker name, longest first, mirroring the
greedy `([a-z0-9-]+)` followed by `\s*CLOSE\s*$`: `nm` is the maximal run
of name characters, `r5` the rest of the line; candidate lengths are tried
from `nm.length` down to 1.  (Only the `html` dialect, whose closer `-->`
overlaps the name alphabet at `-`, ever needs a shorter candidate.) -/
def pickNameLen (close nm r5 : List Char) : Nat → Option (List Char)
  | 0 => none
  | len + 1 =>
    if closeAndWs close (nm.drop (len + 1) ++ r5) then some (nm.take (len + 1))
    else pickNameLen close nm r5 len

/-- Match one line against one dialect's start or end pattern (`keyword` is
`"BAKERY:INJECT:"` or `"BAKERY:END:"`), returning the captured indent and
marker name. -/
def matchMarkerLine (style : CommentStyle) (keyword : List Char) (line : List Char) :
    Option (List Char × List Char) :=
  match stripLit (styleOpen style) (line.dropWhile isWs) with
  | none => none
  | some r2 =>
    match stripLit keyword (r2.dropWhile isWs) with
    | none => none
    | some r4 =>
      let nm := r4.takeWhile isNameChar
      match pickNameLen (styleClose style) nm (r4.dropWhile isNameChar) nm.length with
      | some name => some (line.takeWhile isWs, name)
      | none => none

/-- Marker kind: a `BAKERY:INJECT` line or a `BAKERY:END` line. -/
inductive MKind where
  | kstart
  | kend
deriving DecidableEq, Repr

/-- One recognized marker line (interface `ParsedMarker` of `parser.ts`). -/
structure ParsedMarker where
  kind : MKind
  name : List Char
  indent : List Char
  lineNumber : Nat
  lineStartIndex : Nat
  lineEndIndex : Nat
  style : CommentStyle
deriving DecidableEq, Repr

/-- The dialect try-order of `MARKER_PATTERNS` (object key order). -/
def styleOrder : List CommentStyle :=
  [CommentStyle.js, CommentStyle.python, CommentStyle.html, CommentStyle.css]

/-- Match one line against the dialects in order, start pattern before end
pattern within each dialect, first match winning. -/
def markerOfLineAux (line : List Char) (lineNum sIdx eIdx : Nat) :
    List CommentStyle → Option ParsedMarker
  | [] => none
  | st :: rest =>
    match matchMarkerLine st ("BAKERY:INJECT:").data line with
    | some (ind, name) => some ⟨MKind.kstart, name, ind, lineNum, sIdx, eIdx, st⟩
    | none =>
      match matchMarkerLine st ("BAKERY:END:").data line with
      | some (ind, name) => some ⟨MKind.kend, name, ind, lineNum, sIdx, eIdx, st⟩
      | none => markerOfLineAux line lineNum sIdx eIdx rest

/-- Recognize the marker (if any) on one line. -/
def markerOfLine (line : List Char) (lineNum sIdx eIdx : Nat) : Option ParsedMarker :=
  markerOfLineAux line lineNum sIdx eIdx styleOrder

/-- Walk the lines accumulating the line number and the character index of
the start of the current line (`findAllMarkers`' `charIndex`). -/
def findAllMarkersAux : List (List Char) → Nat → Nat → List ParsedMarker
  | [], _, _ => []
  | l :: ls, n, ci =>
    let e := ci + l.length
    (match markerOfLine l n ci e with
     | some m => [m]
     | none => []) ++ findAllMarkersAux ls (n + 1) (e + 1)

/-- `findAllMarkers` of `parser.ts`: every recognized marker line, in
document order, with its line number and character offsets. -/
def findAllMarkers (content : List Char) : List ParsedMarker :=
  findAllMarkersAux (splitLines content) 0 0

/-! ## Errors (`src/utils/errors.ts`)

The error classes are modelled structurally: each constructor records the
data the corresponding `new ...Error(...)` call site passes, and
`errorMessage` below reproduces the `message` string the class hierarchy
builds from it.  Line numbers are stored 1-based, exactly as interpolated
at the call sites in `parser.ts` (`lineNumber + 1`). -/

inductive InjectError where
  /-- `MarkerNotFoundError(filePath, marker)` -/
  | markerNotFound (marker : List Char)
  /-- `MalformedMarkerError`: END marker without matching INJECT. -/
  | endWithoutStart (name : List Char) (line1 : Nat)
  /-- `MalformedMarkerError`: mismatched INJECT/END names. -/
  | mismatchedEnd (openName : List Char) (openLine1 : Nat)
      (closeName : List Char) (closeLine1 : Nat)
  /-- `MalformedMarkerError`: INJECT marker without matching END. -/
  | unclosedStart (name : List Char) (line1 : Nat)
  /-- `DuplicateMarkerError(filePath, name, lines)` -/
  | duplicateMarker (name : List Char) (lines1 : List Nat)
  /-- `InjectionError` for a JSON parse failure (`injectJson`). -/
  | jsonParse (file : List Char)
  /-- `MarkerSpoofingError(filePath, currentMarker, newMarkers)` -/
  | spoofing (marker : List Char) (newMarkers : List (List Char))
  /-- `InjectionError`: template base path required. -/
  | templateBaseMissing (marker : List Char)
  /-- `InjectionError`: template file not found. -/
  | templateNotFound (marker : List Char) (template : List Char)
  /-- `InjectionError`: no content, template, or json specified. -/
  | noSource (marker : List Char)
deriving DecidableEq, Repr

/-! ## Marker pairing (`parseMarkers` in `src/inject/parser.ts`) -/

/-- A parsed marker region (interface `MarkerRegion` of `types.ts`). -/
structure MarkerRegion where
  name : List Char
  startLine : Nat
  endLine : Nat
  contentStartIndex : Nat
  contentEndIndex : Nat
  indent : List Char
  commentStyle : CommentStyle
deriving DecidableEq, Repr

/-- JavaScript `Map.get`: first binding of the key, if any. -/
def mapGet {α : Type} : List (List Char × α) → List Char → Option α
  | [], _ => none
  | (k, v) :: rest, key => if k = key then some v else mapGet rest key

/-- JavaScript `Map.set`: replace the binding in place if the key is
present, otherwise append a new binding. -/
def mapSet {α : Type} : List (List Char × α) → List Char → α → List (List Char × α)
  | [], key, v => [(key, v)]
  | (k, w) :: rest, key, v =>
    if k = key then (k, v) :: rest else (k, w) :: mapSet rest key v

/-- Append `m` to the group of `k`, creating the group at the end if absent
(the `startMarkers.set(marker.name, existing.push(marker))` idiom). -/
def upsertGroup (k : List Char) (m : ParsedMarker) :
    List (List Char × List ParsedMarker) → List (List Char × List ParsedMarker)
  | [] => [(k, [m])]
  | (k', l) :: rest =>
    if k' = k then (k', l ++ [m]) :: rest else (k', l) :: upsertGroup k m rest

/-- Group the START markers by name, in first-encounter order (the
`startMarkers` map of `parseMarkers`). -/
def groupStartsAux (acc : List (List Char × List ParsedMarker)) :
    List ParsedMarker → List (List Char × List ParsedMarker)
  | [] => acc
  | m :: ms =>
    groupStartsAux (if m.kind = MKind.kstart then upsertGroup m.name m acc else acc) ms

def groupStarts (ms : List ParsedMarker) : List (List Char × List ParsedMarker) :=
  groupStartsAux [] ms

/-- First name (in insertion order) with more than one START marker. -/
def firstDup : List (List Char × List ParsedMarker) → Option (List Char × List ParsedMarker)
  | [] => none
  | (k, l) :: rest => if l.length > 1 then some (k, l) else firstDup rest

/-- The stack walk of `parseMarkers`: push on START; on END pop and check;
at the end of input a non-empty stack reports its bottom (the first,
outermost unclosed START, `openStack[0]`).  The stack is represented with
its top at the head, so `openStack[0]` is the last element. -/
def walkMarkers : List ParsedMarker → List ParsedMarker →
    List (List Char × MarkerRegion) → Except InjectError (List (List Char × MarkerRegion))
  | [], stack, regions =>
    match stack.getLast? with
    | some unclosed => .error (.unclosedStart unclosed.name (unclosed.lineNumber + 1))
    | none => .ok regions
  | ⟨MKind.kstart, name, indent, ln, si, ei, st⟩ :: ms, stack, regions =>
    walkMarkers ms (⟨MKind.kstart, name, indent, ln, si, ei, st⟩ :: stack) regions
  | ⟨MKind.kend, name, _, ln, si, _, _⟩ :: ms, stack, regions =>
    match stack with
    | [] => .error (.endWithoutStart name (ln + 1))
    | lastOpen :: stackRest =>
      if lastOpen.name = name then
        walkMarkers ms stackRest (mapSet regions name
          ⟨name, lastOpen.lineNumber, ln, lastOpen.lineEndIndex + 1, si,
           lastOpen.indent, lastOpen.style⟩)
      else
        .error (.mismatchedEnd lastOpen.name (lastOpen.lineNumber + 1) name (ln + 1))

/-- `parseMarkers` of `parser.ts`: duplicate-START detection first, then
the stack pairing walk.  (The `filePath` parameter of the source only
feeds error messages; messages are rendered by `errorMessage` below.) -/
def parseMarkers (content : List Char) :
    Except InjectError (List (List Char × MarkerRegion)) :=
  let allMarkers := findAllMarkers content
  match firstDup (groupStarts allMarkers) with
  | some (name, starts) =>
    .error (.duplicateMarker name (starts.map (fun m => m.lineNumber + 1)))
  | none => walkMarkers allMarkers [] []

/-- `getMarkerNames`: every marker name encountered (START or END),
regardless of pairing validity, as an insertion-ordered deduplicated list
(JavaScript `Set`). -/
def getMarkerNamesAux (acc : List (List Char)) : List ParsedMarker → List (List Char)
  | [] => acc
  | m :: ms =>
    getMarkerNamesAux (if m.name ∈ acc then acc else acc ++ [m.name]) ms

def getMarkerNames (content : List Char) : List (List Char) :=
  getMarkerNamesAux [] (findAllMarkers content)

/-! ## Injection engine (`src/inject/engine.ts`) -/

/-- Injection position within the marker region. -/
inductive InjPosition where
  | pstart
  | pend
deriving DecidableEq, Repr

/-- Options of `injectContent` (interface `InjectContentOptions`). -/
structure InjectContentOptions where
  position : InjPosition
  newline : Bool
  indent : Bool
deriving DecidableEq, Repr

/-- `applyIndent`: prefix every line of `content` with `indent`, except
that an empty final line (produced by a terminating newline) is left
unindented; an empty `indent` leaves the content unchanged. -/
def applyIndent (content indent : List Char) : List Char :=
  if indent = [] then content
  else
    let lines := splitLines content
    joinLines (mapIdxFrom
      (fun i line => if line.length > 0 || i < lines.length - 1 then indent ++ line else line)
      0 lines)

/-- Does the text end with a newline (`String.endsWith('\n')`)? -/
def endsNl (l : List Char) : Bool :=
  l.getLast? = some '\n'

/-- The indentation and trailing-newline processing `injectContent` applies
to the injection text before splicing. -/
def processedText (injection regionIndent : List Char) (options : InjectContentOptions) :
    List Char :=
  let p1 := if options.indent && !(regionIndent = []) then applyIndent injection regionIndent
            else injection
  if options.newline && !endsNl p1 then p1 ++ ['\n'] else p1

/-- `injectContent`: parse the markers, find the requested region, process
the injection text, and splice it at the requested position. -/
def injectContent (fileContent marker injection : List Char)
    (options : InjectContentOptions) : Except InjectError (List Char) :=
  match parseMarkers fileContent with
  | .error e => .error e
  | .ok regions =>
    match mapGet regions marker with
    | none => .error (.markerNotFound marker)
    | some region =>
      let p := processedText injection region.indent options
      let before := fileContent.take region.contentStartIndex
      let existingContent := (fileContent.drop region.contentStartIndex).take
        (region.contentEndIndex - region.contentStartIndex)
      let after := fileContent.drop region.contentEndIndex
      match options.position with
      | .pstart => .ok (before ++ p ++ existingContent ++ after)
      | .pend => .ok (before ++ existingContent ++ p ++ after)

/-- `validateNoNewMarkers`: any marker name present after the injection but
absent before it is spoofing. -/
def validateNoNewMarkers (beforeContent afterContent currentMarker : List Char) :
    Except InjectError Unit :=
  let markersBefore := getMarkerNames beforeContent
  let markersAfter := getMarkerNames afterContent
  let newMarkers := markersAfter.filter (fun m => !(markersBefore.contains m))
  if newMarkers.isEmpty then .ok () else .error (.spoofing currentMarker newMarkers)

/-! ## JSON values and deep merge (`deepMergeJson`, `injectJson`) -/

/-- JSON values.  Numbers are modelled as `Int`: the merge and path logic
under verification never computes with numbers, it only copies them. -/
inductive Json where
  | jnull : Json
  | jbool (b : Bool) : Json
  | jnum (n : Int) : Json
  | jstr (s : List Char) : Json
  | jarr (elems : List Json) : Json
  | jobj (fields : List (List Char × Json)) : Json

/-- Lower-case hexadecimal digit. -/
def hexDigit (n : Nat) : Char :=
  if n < 10 then Char.ofNat (48 + n) else Char.ofNat (87 + n)

/-- Four-digit hexadecimal rendering, for `\uXXXX` escapes. -/
def hex4 (n : Nat) : List Char :=
  [hexDigit (n / 4096 % 16), hexDigit (n / 256 % 16), hexDigit (n / 16 % 16), hexDigit (n % 16)]

/-- The string-character escaping of `JSON.stringify`. -/
def escapeChar (c : Char) : List Char :=
  if c = '"' then ['\\', '"']
  else if c = '\\' then ['\\', '\\']
  else if c = '\x08' then ['\\', 'b']
  else if c = '\x0c' then ['\\', 'f']
  else if c = '\n' then ['\\', 'n']
  else if c = '\r' then ['\\', 'r']
  else if c = '\t' then ['\\', 't']
  else if c.toNat < 0x20 then '\\' :: 'u' :: hex4 c.toNat
  else [c]

def escapeList : List Char → List Char
  | [] => []
  | c :: cs => escapeChar c ++ escapeList cs

/-- A JSON string literal: quotes around the escaped characters. -/
def quoteStr (s : List Char) : List Char :=
  '"' :: escapeList s ++ ['"']

mutual

/-- Compact `JSON.stringify`, used by `deepMergeJson` as the structural
key for array deduplication. -/
def stringify : Json → List Char
  | .jnull => "null".data
  | .jbool true => "true".data
  | .jbool false => "false".data
  | .jnum n => (toString n).data
  | .jstr s => quoteStr s
  | .jarr es => '[' :: joinSep [','] (stringifyList es) ++ [']']
  | .jobj fs => '\x7b' :: joinSep [','] (stringifyFields fs) ++ ['\x7d']

def stringifyList : List Json → List (List Char)
  | [] => []
  | j :: js => stringify j :: stringifyList js

def stringifyFields : List (List Char × Json) → List (List Char)
  | [] => []
  | (k, v) :: fs => (quoteStr k ++ ':' :: stringify v) :: stringifyFields fs

end

/-- The seen-set deduplication of the array-merge branch: keep the first
occurrence of each `stringify` key. -/
def dedupAux (seen : List (List Char)) : List Json → List Json
  | [] => []
  | x :: xs =>
    let key := stringify x
    if key ∈ seen then dedupAux seen xs else x :: dedupAux (key :: seen) xs

mutual

/-- `deepMergeJson`: fold the source's bindings into a copy of the target.
`mergeOne` is the body of the `for (const key of Object.keys(source))`
loop: recurse when both values are objects, concatenate-and-deduplicate
when both are arrays, otherwise the source value wins. -/
def deepMergeJson : List (List Char × Json) → List (List Char × Json) →
    List (List Char × Json)
  | result, [] => result
  | result, (key, sourceVal) :: rest => deepMergeJson (mergeOne result key sourceVal) rest

def mergeOne (result : List (List Char × Json)) (key : List Char) :
    Json → List (List Char × Json)
  | .jobj sfs =>
    match mapGet result key with
    | some (.jobj tfs) => mapSet result key (.jobj (deepMergeJson tfs sfs))
    | _ => mapSet result key (.jobj sfs)
  | .jarr sa =>
    match mapGet result key with
    | some (.jarr ta) => mapSet result key (.jarr (dedupAux [] (ta ++ sa)))
    | _ => mapSet result key (.jarr sa)
  | v => mapSet result key v

end

/-- `parseJsonPath`: `$.a.b.c` becomes `[a, b, c]`; a path without the
`$.` front is a single top-level key. -/
def parseJsonPath (jsonPath : List Char) : List (List Char) :=
  match stripLit ("$.").data jsonPath with
  | some rest => splitOnChar '.' rest
  | none => [jsonPath]

/-- `getNestedValue`: walk the parts; a missing key or a non-object on the
way yields `none` (`undefined`). -/
def getNestedValue (v : Json) : List (List Char) → Option Json
  | [] => some v
  | p :: ps =>
    match v with
    | .jobj fs =>
      match mapGet fs p with
      | some w => getNestedValue w ps
      | none => none
    | _ => none

/-- JavaScript object spread `{...v}` of a JSON value: objects keep their
fields, arrays and strings contribute their indexed elements under
numeric-string keys, and numbers, booleans and `null` contribute nothing. -/
def spreadArr (i : Nat) : List Json → List (List Char × Json)
  | [] => []
  | v :: vs => (natToChars i, v) :: spreadArr (i + 1) vs

def spreadStr (i : Nat) : List Char → List (List Char × Json)
  | [] => []
  | c :: cs => (natToChars i, .jstr [c]) :: spreadStr (i + 1) cs

def spreadToObj : Json → List (List Char × Json)
  | .jobj fs => fs
  | .jarr es => spreadArr 0 es
  | .jstr s => spreadStr 0 s
  | _ => []

/-- `setNestedValue`: write `value` at the path inside a shallow copy of
`obj`, creating empty objects along missing intermediate parts.  An empty
path returns `value` when it is an object and `obj` unchanged otherwise;
an empty first part returns the shallow copy unchanged. -/
def setNestedValue (obj : Json) (pathParts : List (List Char)) (value : Json) : Json :=
  match pathParts with
  | [] =>
    match value with
    | .jobj _ => value
    | _ => obj
  | first :: rest =>
    let result := spreadToObj obj
    if first = [] then .jobj result
    else
      match rest with
      | [] => .jobj (mapSet result first value)
      | _ :: _ =>
        .jobj (mapSet result first
          (setNestedValue
            (match mapGet result first with
             | some (.jobj fs) => .jobj fs
             | _ => .jobj []) rest value))

/-- Pretty `JSON.stringify(result, null, 2)`. -/
def spaces (n : Nat) : List Char :=
  List.replicate n ' '

mutual

def sPretty (pad : Nat) : Json → List Char
  | .jnull => "null".data
  | .jbool true => "true".data
  | .jbool false => "false".data
  | .jnum n => (toString n).data
  | .jstr s => quoteStr s
  | .jarr [] => "[]".data
  | .jarr (e :: es) =>
    '[' :: '\n' :: joinSep (",\n").data (sPrettyList (pad + 2) (e :: es)) ++
      '\n' :: spaces pad ++ [']']
  | .jobj [] => ("\x7b\x7d").data
  | .jobj (f :: fs) =>
    '\x7b' :: '\n' :: joinSep (",\n").data (sPrettyFields (pad + 2) (f :: fs)) ++
      '\n' :: spaces pad ++ ['\x7d']

def sPrettyList (pad : Nat) : List Json → List (List Char)
  | [] => []
  | j :: js => (spaces pad ++ sPretty pad j) :: sPrettyList pad js

def sPrettyFields (pad : Nat) : List (List Char × Json) → List (List Char)
  | [] => []
  | (k, v) :: fs =>
    (spaces pad ++ quoteStr k ++ ':' :: ' ' :: sPretty pad v) :: sPrettyFields pad fs

end

/-- The merged document `injectJson` computes, before serialization: merge
at the root when there is no (non-empty) JSON path, otherwise merge into
or overwrite the value at the path. -/
def injectJsonValue (parsed : Json) (jsonPath : Option (List Char))
    (jsonToMerge : List (List Char × Json)) : Json :=
  match jsonPath with
  | some jp =>
    if jp = [] then .jobj (deepMergeJson (spreadToObj parsed) jsonToMerge)
    else
      let pathParts := parseJsonPath jp
      match getNestedValue parsed pathParts with
      | some (.jobj existingFs) =>
        setNestedValue parsed pathParts (.jobj (deepMergeJson existingFs jsonToMerge))
      | _ => setNestedValue parsed pathParts (.jobj jsonToMerge)
  | none => .jobj (deepMergeJson (spreadToObj parsed) jsonToMerge)

/-- `injectJson`: `JSON.parse` is a platform primitive, so its outcome is
taken as the argument `parseResult`; a parse failure is the only error,
and success re-serializes with two-space indentation and a trailing
newline. -/
def injectJson (file : List Char) (parseResult : Option Json)
    (jsonPath : Option (List Char)) (jsonToMerge : List (List Char × Json)) :
    Except InjectError (List Char) :=
  match parseResult with
  | none => .error (.jsonParse file)
  | some parsed =>
    .ok (sPretty 0 (injectJsonValue parsed jsonPath jsonToMerge) ++ ['\n'])

/-! ## Error messages (`src/utils/errors.ts`)

`CliError` subclasses build their `message` from the constructor data; the
two functions below reproduce the `message` field (`InjectionError` wraps
the detail as `Injection failed: <detail> (file: <file>, marker: <marker>)`). -/

def errDetail : InjectError → List Char
  | .markerNotFound m => ("Marker '").data ++ m ++ ("' not found").data
  | .endWithoutStart _ l =>
    ("Malformed marker: END marker without matching INJECT at line ").data ++ natToChars l
  | .mismatchedEnd onm ol cnm cl =>
    ("Malformed marker: Mismatched markers: INJECT:").data ++ onm ++ (" at line ").data ++
      natToChars ol ++ (" closed by END:").data ++ cnm ++ (" at line ").data ++ natToChars cl
  | .unclosedStart _ l =>
    ("Malformed marker: INJECT marker without matching END at line ").data ++ natToChars l
  | .duplicateMarker _ lines1 =>
    ("Duplicate marker found at lines ").data ++ joinSep (", ").data (lines1.map natToChars)
  | .jsonParse file => ("Failed to parse JSON in ").data ++ file
  | .spoofing _ newMarkers =>
    ("Injection attempted to create new markers: ").data ++ joinSep (", ").data newMarkers
  | .templateBaseMissing _ => ("Template base path required for template injection").data
  | .templateNotFound _ t => ("Template file not found: ").data ++ t
  | .noSource _ => ("No content, template, or json specified").data

/-- The `marker` field each error class carries (interpolated into the
`InjectionError` message). -/
def errMarkerField : InjectError → List Char
  | .markerNotFound m => m
  | .endWithoutStart n _ => n
  | .mismatchedEnd _ _ cnm _ => cnm
  | .unclosedStart n _ => n
  | .duplicateMarker n _ => n
  | .jsonParse _ => ("json").data
  | .spoofing m _ => m
  | .templateBaseMissing m => m
  | .templateNotFound m _ => m
  | .noSource m => m

/-- The full `error.message` string. -/
def errorMessage (e : InjectError) (file : List Char) : List Char :=
  ("Injection failed: ").data ++ errDetail e ++ (" (file: ").data ++ file ++
    (", marker: ").data ++ errMarkerField e ++ (")").data

/-! ## Injection processor (`src/inject/processor.ts`)

The filesystem is an association list from paths to contents; `writeFileSync`
never faults in the model (its `try/catch` wrapper in the source is
unreachable here), and `existsSync` + `readFileSync` collapse to one lookup.
The EJS renderer (with its captured template context) is the opaque
`render` argument, and `JSON.parse` is the opaque `parseJson` argument. -/

/-- One injection definition (schema `InjectionDefinitionSchema` of
`types.ts`, after defaulting: `position`, `newline`, `indent` resolved). -/
structure InjectionDef where
  file : List Char
  marker : Option (List Char)
  content : Option (List Char)
  template : Option (List Char)
  json : Option (List (List Char × Json))
  jsonPath : Option (List Char)
  position : InjPosition
  newline : Bool
  indent : Bool

/-- Outcome record of one injection (interface `InjectionResult`). -/
structure InjectionResult where
  file : List Char
  marker : List Char
  addon : List Char
  success : Bool
  error : Option (List Char)
  linesAdded : Int
deriving DecidableEq, Repr

/-- `path.join(a, b)` for the plain relative paths the processor builds. -/
def pathJoin (a b : List Char) : List Char :=
  a ++ '/' :: b

/-- `s.split('\n').length`. -/
def countLines (content : List Char) : Nat :=
  (splitLines content).length

/-- `resolveInjectionContent`: a literal `content` is rendered through the
template collaborator; a `template` requires a base path and an existing
template file, which is then rendered; otherwise no source is specified. -/
def resolveInjectionContent (render : List Char → List Char)
    (fs : List (List Char × List Char)) (injection : InjectionDef)
    (templateBasePath : Option (List Char)) : Except InjectError (List Char) :=
  let marker := injection.marker.getD ("unknown").data
  match injection.content with
  | some c => .ok (render c)
  | none =>
    match injection.template with
    | some t =>
      match templateBasePath with
      | none => .error (.templateBaseMissing marker)
      | some basePath =>
        match mapGet fs (pathJoin basePath t) with
        | none => .error (.templateNotFound marker t)
        | some templateContent => .ok (render templateContent)
    | none => .error (.noSource marker)

/-- `processSingleInjection`: read the target, run the JSON or the text
branch, and return the result record together with the filesystem after
the call (unchanged on any failure). -/
def processSingleInjection (render : List Char → List Char)
    (parseJson : List Char → Option Json) (fs : List (List Char × List Char))
    (projectDir : List Char) (injection : InjectionDef) (addonName : List Char)
    (templateBasePath : Option (List Char)) :
    InjectionResult × List (List Char × List Char) :=
  let filePath := pathJoin projectDir injection.file
  let marker := injection.marker.getD ("json").data
  let base : InjectionResult := ⟨injection.file, marker, addonName, false, none, 0⟩
  match mapGet fs filePath with
  | none =>
    ({ base with error := some (("Target file not found: ").data ++ injection.file) }, fs)
  | some fileContent =>
    match injection.json with
    | some jsonToMerge =>
      match injectJson injection.file (parseJson fileContent) injection.jsonPath jsonToMerge with
      | .error e => ({ base with error := some (errorMessage e injection.file) }, fs)
      | .ok newContent =>
        ({ base with
            success := true
            linesAdded := (countLines newContent : Int) - (countLines fileContent : Int) },
         mapSet fs filePath newContent)
    | none =>
      match resolveInjectionContent render fs injection templateBasePath with
      | .error e => ({ base with error := some (errorMessage e injection.file) }, fs)
      | .ok injectionContent =>
        match injectContent fileContent marker injectionContent
            ⟨injection.position, injection.newline, injection.indent⟩ with
        | .error e => ({ base with error := some (errorMessage e injection.file) }, fs)
        | .ok newContent =>
          match validateNoNewMarkers fileContent newContent marker with
          | .error e => ({ base with error := some (errorMessage e injection.file) }, fs)
          | .ok _ =>
            ({ base with
                success := true
                linesAdded := (countLines injectionContent : Int) -
                  (if endsNl injectionContent then 1 else 0) },
             mapSet fs filePath newContent)

/-- `processInjections`: fold the batch in order, threading the filesystem,
collecting one result per definition. -/
def processInjections (render : List Char → List Char)
    (parseJson : List Char → Option Json) (fs : List (List Char × List Char))
    (projectDir : List Char) (injections : List InjectionDef) (addonName : List Char)
    (templateBasePath : Option (List Char)) :
    List InjectionResult × List (List Char × List Char) :=
  match injections with
  | [] => ([], fs)
  | injection :: rest =>
    let step := processSingleInjection render parseJson fs projectDir injection
      addonName templateBasePath
    let restOut := processInjections render parseJson step.2 projectDir rest
      addonName templateBasePath
    (step.1 :: restOut.1, restOut.2)

/-! ## Specification-side definitions

These definitions follow the wording of the specification (not the code);
the claim theorems below compare the code-derived definitions against
them. -/

/-- The START markers carrying a given name, in document order
(spec §4.1 step 3: "Collect all START markers"). -/
def startMarkersOf : List ParsedMarker → List Char → List ParsedMarker
  | [], _ => []
  | m :: ms, name =>
    if m.kind = MKind.kstart ∧ m.name = name then m :: startMarkersOf ms name
    else startMarkersOf ms name

/-- Outcome of the structural pairing walk as the specification describes
it (§4.1 steps 4-5), with 0-based line numbers as in the data model (§3). -/
inductive PairOutcome where
  | endUnmatched (name : List Char) (line : Nat)
  | nameMismatch (openName : List Char) (openLine : Nat)
      (closeName : List Char) (closeLine : Nat)
  | unclosedOpen (name : List Char) (line : Nat)
  | balanced (regions : List (List Char × MarkerRegion))
deriving DecidableEq, Repr

/-- Spec §4.1 steps 4-5: walk the markers in document order with an
explicit stack: push on START; on END, an empty stack is "END without
matching INJECT", a name different from the popped START's is "mismatched
markers", and a matching pair emits a `MarkerRegion` from the START's
indent/style and the computed content offsets; after all markers, a
non-empty stack reports the first (outermost) unclosed START. -/
def pairingSpec : List ParsedMarker → List ParsedMarker →
    List (List Char × MarkerRegion) → PairOutcome
  | [], stack, regions =>
    match stack.getLast? with
    | some unclosed => .unclosedOpen unclosed.name unclosed.lineNumber
    | none => .balanced regions
  | ⟨MKind.kstart, name, indent, ln, si, ei, st⟩ :: ms, stack, regions =>
    pairingSpec ms (⟨MKind.kstart, name, indent, ln, si, ei, st⟩ :: stack) regions
  | ⟨MKind.kend, name, _, ln, si, _, _⟩ :: ms, stack, regions =>
    match stack with
    | [] => .endUnmatched name ln
    | top :: rest =>
      if top.name = name then
        pairingSpec ms rest (mapSet regions name
          ⟨name, top.lineNumber, ln, top.lineEndIndex + 1, si, top.indent, top.style⟩)
      else .nameMismatch top.name top.lineNumber name ln

/-- Read a pairing outcome as a `parseMarkers` result, 1-basing the cited
line numbers as the error messages do. -/
def specToExcept : PairOutcome → Except InjectError (List (List Char × MarkerRegion))
  | .endUnmatched n l => .error (.endWithoutStart n (l + 1))
  | .nameMismatch onm ol cnm cl => .error (.mismatchedEnd onm (ol + 1) cnm (cl + 1))
  | .unclosedOpen n l => .error (.unclosedStart n (l + 1))
  | .balanced regions => .ok regions

/-- The per-key merge rule of spec §4.2: both objects recurse, both arrays
concatenate and deduplicate structurally keeping first occurrences,
otherwise the source value wins outright. -/
def mergeValueSpec (targetVal : Option Json) (sourceVal : Json) : Json :=
  match sourceVal, targetVal with
  | .jobj sfs, some (.jobj tfs) => .jobj (deepMergeJson tfs sfs)
  | .jarr sa, some (.jarr ta) => .jarr (dedupAux [] (ta ++ sa))
  | v, _ => v

/-! ## Supporting lemmas -/

theorem mem_getMarkerNamesAux (ms : List ParsedMarker) (acc : List (List Char))
    (n : List Char) :
    n ∈ getMarkerNamesAux acc ms ↔ n ∈ acc ∨ ∃ m ∈ ms, ParsedMarker.name m = n := by
  induction ms generalizing acc with
  | nil => simp [getMarkerNamesAux]
  | cons m ms ih =>
    rw [getMarkerNamesAux, ih]
    by_cases hm : m.name ∈ acc
    · rw [if_pos hm]
      constructor
      · rintro (h | ⟨x, hx, he⟩)
        · exact Or.inl h
        · exact Or.inr ⟨x, List.mem_cons_of_mem _ hx, he⟩
      · rintro (h | ⟨x, hx, he⟩)
        · exact Or.inl h
        · rcases List.mem_cons.mp hx with h1 | h1
          · subst h1
            exact Or.inl (he ▸ hm)
          · exact Or.inr ⟨x, h1, he⟩
    · rw [if_neg hm]
      constructor
      · rintro (h | ⟨x, hx, he⟩)
        · rcases List.mem_append.mp h with h1 | h1
          · exact Or.inl h1
          · exact Or.inr ⟨m, List.mem_cons_self _ _, (List.mem_singleton.mp h1).symm⟩
        · exact Or.inr ⟨x, List.mem_cons_of_mem _ hx, he⟩
      · rintro (h | ⟨x, hx, he⟩)
        · exact Or.inl (List.mem_append.mpr (Or.inl h))
        · rcases List.mem_cons.mp hx with h1 | h1
          · subst h1
            exact Or.inl (List.mem_append.mpr (Or.inr (by simp [he])))
          · exact Or.inr ⟨x, h1, he⟩

theorem mem_getMarkerNames (content : List Char) (n : List Char) :
    n ∈ getMarkerNames content ↔ ∃ m ∈ findAllMarkers content, ParsedMarker.name m = n := by
  rw [getMarkerNames, mem_getMarkerNamesAux]
  simp

/-! ## Claim theorems -/

/-- C9.  `validateNoNewMarkers` succeeds exactly when every marker name
occurring in the post-injection content already occurs in the
pre-injection content; the names are collected from every recognized
marker line — START or END, any dialect — with no pairing requirement;
and a payload that merely repeats marker lines with names already present
(here a second, unbalanced pair of `routes` markers) passes the check. -/
theorem validateNoNewMarkers_ok_iff :
    (∀ beforeC afterC marker : List Char,
      validateNoNewMarkers beforeC afterC marker = .ok () ↔
        ∀ n ∈ getMarkerNames afterC, n ∈ getMarkerNames beforeC) ∧
    (∀ content n, n ∈ getMarkerNames content ↔
        ∃ m ∈ findAllMarkers content, ParsedMarker.name m = n) ∧
    validateNoNewMarkers
      ("// BAKERY:INJECT:routes\n// BAKERY:END:routes\n").data
      ("// BAKERY:INJECT:routes\n// BAKERY:INJECT:routes\n// BAKERY:END:routes\n// BAKERY:END:routes\n").data
      ("routes").data = .ok () := by
  refine ⟨?_, mem_getMarkerNames, by rfl⟩
  intro beforeC afterC marker
  simp only [validateNoNewMarkers]
  constructor
  · intro hok n hn
    by_contra hmem
    have hfil : n ∈ List.filter (fun m => !(getMarkerNames beforeC).contains m)
        (getMarkerNames afterC) := by
      rw [List.mem_filter]
      refine ⟨hn, ?_⟩
      simp only [Bool.not_eq_true']
      exact (Bool.not_eq_true _).mp (fun hc => hmem (List.elem_iff.mp hc))
    have hne : (List.filter (fun m => !(getMarkerNames beforeC).contains m)
        (getMarkerNames afterC)).isEmpty = false := by
      rw [Bool.eq_false_iff]
      intro htrue
      rw [List.isEmpty_iff] at htrue
      rw [htrue] at hfil
      exact List.not_mem_nil n hfil
    rw [hne] at hok
    exact absurd hok (by simp)
  · intro hall
    have hnil : List.filter (fun m => !(getMarkerNames beforeC).contains m)
        (getMarkerNames afterC) = [] := by
      rw [List.filter_eq_nil_iff]
      intro n hn
      simp [List.elem_iff, hall n hn]
    rw [hnil]
    rfl

/-- C7.  On a file that parses with an empty region (`contentStartIndex =
contentEndIndex`), injecting the empty string with `newline := false` and
`indent := false` is the identity on the file content, for either
position. -/
theorem injectContent_empty_region_noop (content m : List Char)
    (regions : List (List Char × MarkerRegion)) (r : MarkerRegion) (pos : InjPosition)
    (hparse : parseMarkers content = .ok regions)
    (hget : mapGet regions m = some r)
    (hempty : r.contentStartIndex = r.contentEndIndex) :
    injectContent content m [] ⟨pos, false, false⟩ = .ok content := by
  have h0 : r.contentEndIndex - r.contentStartIndex = 0 := by omega
  cases pos <;>
    simp [injectContent, hparse, hget, processedText, h0, hempty, List.take_append_drop]

/-- Witness for C7 at a concrete two-line file with an empty region. -/
theorem injectContent_empty_region_noop_witness :
    injectContent ("// BAKERY:INJECT:routes\n// BAKERY:END:routes\n").data ("routes").data []
      ⟨InjPosition.pend, false, false⟩ =
      .ok ("// BAKERY:INJECT:routes\n// BAKERY:END:routes\n").data :=
  injectContent_empty_region_noop _ _
    [(("routes").data, ⟨("routes").data, 0, 1, 24, 24, [], CommentStyle.js⟩)]
    ⟨("routes").data, 0, 1, 24, 24, [], CommentStyle.js⟩ InjPosition.pend rfl rfl rfl

/-- C2.  `injectContent` returns exactly the splice of the content before
`contentStartIndex`, the processed injection text and the existing region
content (ordered by `position`), and the content from `contentEndIndex`
on; consequently with existing content `A`, `position := end` puts `A`
before the injected `B` and `position := start` puts `B` before `A`, and
two sequential `position := end` calls accumulate in call order. -/
theorem injectContent_splice :
    (∀ (content m injection : List Char) (opts : InjectContentOptions)
       (regions : List (List Char × MarkerRegion)) (r : MarkerRegion),
      parseMarkers content = .ok regions → mapGet regions m = some r →
      injectContent content m injection opts = .ok (
        content.take r.contentStartIndex ++
        (match opts.position with
         | .pstart => processedText injection r.indent opts ++
             (content.drop r.contentStartIndex).take
               (r.contentEndIndex - r.contentStartIndex)
         | .pend => (content.drop r.contentStartIndex).take
             (r.contentEndIndex - r.contentStartIndex) ++
             processedText injection r.indent opts) ++
        content.drop r.contentEndIndex)) ∧
    injectContent ("// BAKERY:INJECT:r\nA\n// BAKERY:END:r\n").data ("r").data ("B").data
      ⟨InjPosition.pend, true, true⟩ =
      .ok ("// BAKERY:INJECT:r\nA\nB\n// BAKERY:END:r\n").data ∧
    injectContent ("// BAKERY:INJECT:r\nA\n// BAKERY:END:r\n").data ("r").data ("B").data
      ⟨InjPosition.pstart, true, true⟩ =
      .ok ("// BAKERY:INJECT:r\nB\nA\n// BAKERY:END:r\n").data ∧
    injectContent ("// BAKERY:INJECT:r\n// BAKERY:END:r\n").data ("r").data ("one").data
      ⟨InjPosition.pend, true, true⟩ =
      .ok ("// BAKERY:INJECT:r\none\n// BAKERY:END:r\n").data ∧
    injectContent ("// BAKERY:INJECT:r\none\n// BAKERY:END:r\n").data ("r").data ("two").data
      ⟨InjPosition.pend, true, true⟩ =
      .ok ("// BAKERY:INJECT:r\none\ntwo\n// BAKERY:END:r\n").data := by
  refine ⟨?_, by rfl, by rfl, by rfl, by rfl⟩
  intro content m injection opts regions r hparse hget
  cases hpos : opts.position <;>
    simp [injectContent, hparse, hget, hpos]

/-- Witness for C2's general splice equation at a concrete file. -/
theorem injectContent_splice_witness :
    injectContent ("// BAKERY:INJECT:r\nA\n// BAKERY:END:r\n").data ("r").data ("B").data
      ⟨InjPosition.pend, true, false⟩ =
      .ok (("// BAKERY:INJECT:r\nA\n// BAKERY:END:r\n").data.take 19 ++
        ((("// BAKERY:INJECT:r\nA\n// BAKERY:END:r\n").data.drop 19).take (21 - 19) ++
          processedText ("B").data [] ⟨InjPosition.pend, true, false⟩) ++
        ("// BAKERY:INJECT:r\nA\n// BAKERY:END:r\n").data.drop 21) :=
  injectContent_splice.1 _ _ _ _
    [(("r").data, ⟨("r").data, 0, 2, 19, 21, [], CommentStyle.js⟩)]
    ⟨("r").data, 0, 2, 19, 21, [], CommentStyle.js⟩ rfl rfl

theorem mapGet_mapSet_self {α : Type} (l : List (List Char × α)) (k : List Char) (v : α) :
    mapGet (mapSet l k v) k = some v := by
  induction l with
  | nil => simp [mapSet, mapGet]
  | cons p l ih =>
    obtain ⟨k', w⟩ := p
    by_cases h : k' = k
    · subst h
      simp [mapSet, mapGet]
    · simp [mapSet, mapGet, h, ih]

theorem mapGet_mapSet_ne {α : Type} (l : List (List Char × α)) (k k' : List Char) (v : α)
    (h : k' ≠ k) : mapGet (mapSet l k v) k' = mapGet l k' := by
  induction l with
  | nil => simp [mapSet, mapGet, Ne.symm h]
  | cons p l ih =>
    obtain ⟨k0, w⟩ := p
    by_cases h0 : k0 = k <;> by_cases h1 : k0 = k' <;>
      simp_all [mapSet, mapGet]

theorem mapGet_eq_none {α : Type} (l : List (List Char × α)) (k : List Char)
    (h : k ∉ l.map Prod.fst) : mapGet l k = none := by
  induction l with
  | nil => rfl
  | cons p l ih =>
    obtain ⟨k0, w⟩ := p
    simp only [List.map_cons, List.mem_cons] at h
    push_neg at h
    simp [mapGet, Ne.symm h.1, ih h.2]

theorem mergeOne_eq (t : List (List Char × Json)) (key : List Char) (sv : Json) :
    mergeOne t key sv = mapSet t key (mergeValueSpec (mapGet t key) sv) := by
  cases sv with
  | jobj sfs =>
    cases h : mapGet t key with
    | none => simp [mergeOne, mergeValueSpec, h]
    | some tv => cases tv <;> simp [mergeOne, mergeValueSpec, h]
  | jarr sa =>
    cases h : mapGet t key with
    | none => simp [mergeOne, mergeValueSpec, h]
    | some tv => cases tv <;> simp [mergeOne, mergeValueSpec, h]
  | jnull => simp [mergeOne, mergeValueSpec]
  | jbool b => simp [mergeOne, mergeValueSpec]
  | jnum n => simp [mergeOne, mergeValueSpec]
  | jstr s => simp [mergeOne, mergeValueSpec]

theorem deepMergeJson_get (s t : List (List Char × Json)) (k : List Char)
    (hnodup : (s.map Prod.fst).Nodup) :
    mapGet (deepMergeJson t s) k =
      match mapGet s k with
      | none => mapGet t k
      | some sv => some (mergeValueSpec (mapGet t k) sv) := by
  induction s generalizing t with
  | nil => simp [deepMergeJson, mapGet]
  | cons p rest ih =>
    obtain ⟨key, sv⟩ := p
    simp only [List.map_cons, List.nodup_cons] at hnodup
    obtain ⟨hkey, hrest⟩ := hnodup
    rw [deepMergeJson, ih _ hrest]
    by_cases hk : k = key
    · subst hk
      rw [mapGet_eq_none rest k hkey]
      have hself : mapGet ((k, sv) :: rest) k = some sv := by
        rw [mapGet, if_pos rfl]
      rw [hself]
      have hmerged : mapGet (mergeOne t k sv) k = some (mergeValueSpec (mapGet t k) sv) := by
        rw [mergeOne_eq, mapGet_mapSet_self]
      rw [hmerged]
    · have hcons : mapGet ((key, sv) :: rest) k = mapGet rest k := by
        rw [mapGet, if_neg (fun he => hk he.symm)]
      rw [hcons]
      have hother : mapGet (mergeOne t key sv) k = mapGet t k := by
        rw [mergeOne_eq, mapGet_mapSet_ne _ _ _ _ hk]
      rw [hother]

/-- C5.  `deepMergeJson` is a key-by-key merge of the source into the
target: for every key, the merged binding is the target's when the key is
absent from the source, and otherwise follows the per-key rule (objects
recurse, arrays concatenate and deduplicate structurally keeping the first
occurrence, anything else is overwritten by the source); in particular
`{deps:[a,b]}` merged with `{deps:[b,c]}` gives `{deps:[a,b,c]}` and
`{version:"1.0.0"}` merged with `{version:"2.0.0"}` gives
`{version:"2.0.0"}`.  (The embedding is purely functional, so the
source-level guarantee that neither input object is mutated is inherent:
both arguments are values.) -/
theorem deepMergeJson_spec :
    (∀ (target source : List (List Char × Json)) (k : List Char),
      (source.map Prod.fst).Nodup →
      mapGet (deepMergeJson target source) k =
        match mapGet source k with
        | none => mapGet target k
        | some sv => some (mergeValueSpec (mapGet target k) sv)) ∧
    deepMergeJson [(("deps").data, .jarr [.jstr ("a").data, .jstr ("b").data])]
        [(("deps").data, .jarr [.jstr ("b").data, .jstr ("c").data])] =
      [(("deps").data, .jarr [.jstr ("a").data, .jstr ("b").data, .jstr ("c").data])] ∧
    deepMergeJson [(("version").data, .jstr ("1.0.0").data)]
        [(("version").data, .jstr ("2.0.0").data)] =
      [(("version").data, .jstr ("2.0.0").data)] :=
  ⟨fun target source k h => deepMergeJson_get source target k h, rfl, rfl⟩

/-- Witness for C5's general merge rule at concrete inputs. -/
theorem deepMergeJson_spec_witness :
    (([(("a").data, Json.jnum 1)].map (Prod.fst (α := List Char) (β := Json))).Nodup) ∧
    mapGet (deepMergeJson [(("a").data, Json.jnum 2)] [(("a").data, Json.jnum 1)])
      ("a").data = some (mergeValueSpec (some (Json.jnum 2)) (Json.jnum 1)) :=
  ⟨by decide, deepMergeJson_spec.1 [(("a").data, Json.jnum 2)]
    [(("a").data, Json.jnum 1)] ("a").data (by decide)⟩

/-- C10 (corrected).  `injectJson` errs exactly on a JSON parse failure:
with no parse result it reports the parse error, and for every parsed
document (any root) it succeeds.  A non-object root is object-spread into
the merge: an array root and a string root contribute their elements under
numeric-string keys (a string spreads into its one-character strings),
while a number, `null` or boolean root contributes nothing, leaving the
fragment's keys alone. -/
theorem injectJson_error_only_on_parse_failure :
    (∀ (file : List Char) (path : Option (List Char)) (frag : List (List Char × Json)),
      injectJson file none path frag = .error (.jsonParse file)) ∧
    (∀ (file : List Char) (parsed : Json) (path : Option (List Char))
       (frag : List (List Char × Json)),
      ∃ out, injectJson file (some parsed) path frag = .ok out) ∧
    injectJson ("f").data (some (.jarr [.jstr ("a").data])) none [(("x").data, .jnum 1)] =
      .ok ("\x7b\n  \x220\x22: \x22a\x22,\n  \x22x\x22: 1\n\x7d\n").data ∧
    injectJson ("f").data (some (.jstr ("ab").data)) none [(("x").data, .jnum 1)] =
      .ok ("\x7b\n  \x220\x22: \x22a\x22,\n  \x221\x22: \x22b\x22,\n  \x22x\x22: 1\n\x7d\n").data ∧
    injectJson ("f").data (some (.jnum 5)) none [(("x").data, .jnum 1)] =
      .ok ("\x7b\n  \x22x\x22: 1\n\x7d\n").data ∧
    injectJson ("f").data (some .jnull) none [(("x").data, .jnum 1)] =
      .ok ("\x7b\n  \x22x\x22: 1\n\x7d\n").data ∧
    injectJson ("f").data (some (.jbool true)) none [(("x").data, .jnum 1)] =
      .ok ("\x7b\n  \x22x\x22: 1\n\x7d\n").data :=
  ⟨fun _ _ _ => rfl, fun _ _ _ _ => ⟨_, rfl⟩, rfl, rfl, rfl, rfl, rfl⟩

/-- C10, counterexample to the claim as stated: a JSON *string* root is a
scalar, yet a root-level merge does not leave "the fragment's keys alone":
the string is object-spread into numeric-string keys holding its
one-character strings, which survive into the output. -/
theorem injectJson_string_root_not_replaced :
    injectJson ("f").data (some (.jstr ("ab").data)) none [(("x").data, .jnum 1)] =
      .ok ("\x7b\n  \x220\x22: \x22a\x22,\n  \x221\x22: \x22b\x22,\n  \x22x\x22: 1\n\x7d\n").data ∧
    ("\x7b\n  \x220\x22: \x22a\x22,\n  \x221\x22: \x22b\x22,\n  \x22x\x22: 1\n\x7d\n").data ≠
      ("\x7b\n  \x22x\x22: 1\n\x7d\n").data :=
  ⟨rfl, by decide⟩

/-- Witness for C9's equivalence at a concrete pair of contents. -/
theorem validateNoNewMarkers_ok_iff_witness :
    validateNoNewMarkers ("// BAKERY:INJECT:r\n").data ("// BAKERY:INJECT:r\n").data
      ("r").data = .ok () :=
  (validateNoNewMarkers_ok_iff.1 _ _ _).mpr (by decide)

theorem splitOnChar_ne_nil (c : Char) (l : List Char) : splitOnChar c l ≠ [] := by
  cases l with
  | nil => simp [splitOnChar]
  | cons d rest =>
    rw [splitOnChar]
    by_cases h : d = c
    · simp [h]
    · simp only [if_neg h]
      cases hs : splitOnChar c rest <;> simp

theorem not_mem_of_mem_splitOnChar (c : Char) (l : List Char) :
    ∀ p ∈ splitOnChar c l, c ∉ p := by
  induction l with
  | nil =>
    intro p hp
    simp only [splitOnChar, List.mem_singleton] at hp
    simp [hp]
  | cons d rest ih =>
    intro p hp
    rw [splitOnChar] at hp
    by_cases h : d = c
    · rw [if_pos h] at hp
      rcases List.mem_cons.mp hp with h1 | h1
      · simp [h1]
      · exact ih p h1
    · rw [if_neg h] at hp
      cases hs : splitOnChar c rest with
      | nil => exact absurd hs (splitOnChar_ne_nil c rest)
      | cons l0 ls =>
        rw [hs] at hp
        rcases List.mem_cons.mp hp with h1 | h1
        · subst h1
          intro hc
          rcases List.mem_cons.mp hc with h2 | h2
          · exact h h2.symm
          · exact ih l0 (hs ▸ List.mem_cons_self _ _) h2
        · exact ih p (hs ▸ List.mem_cons_of_mem _ h1)

theorem splitOnChar_of_not_mem (c : Char) (x : List Char) (h : c ∉ x) :
    splitOnChar c x = [x] := by
  induction x with
  | nil => rfl
  | cons d rest ih =>
    simp only [List.mem_cons] at h
    push_neg at h
    rw [splitOnChar, if_neg (fun he => h.1 he.symm), ih h.2]

theorem splitOnChar_append_sep (c : Char) (x rest : List Char) (h : c ∉ x) :
    splitOnChar c (x ++ c :: rest) = x :: splitOnChar c rest := by
  induction x with
  | nil => simp [splitOnChar]
  | cons d x' ih =>
    simp only [List.mem_cons] at h
    push_neg at h
    rw [List.cons_append, splitOnChar, if_neg (fun he => h.1 he.symm), ih h.2]

theorem splitOnChar_joinSep (c : Char) (ls : List (List Char)) (hne : ls ≠ [])
    (h : ∀ p ∈ ls, c ∉ p) : splitOnChar c (joinSep [c] ls) = ls := by
  induction ls with
  | nil => exact absurd rfl hne
  | cons x tl ih =>
    cases tl with
    | nil =>
      rw [joinSep, splitOnChar_of_not_mem c x (h x (List.mem_singleton.mpr rfl))]
    | cons y tl' =>
      have hx : c ∉ x := h x (List.mem_cons_self _ _)
      have hjoin : joinSep [c] (x :: y :: tl') = x ++ c :: joinSep [c] (y :: tl') := by
        simp [joinSep]
      rw [hjoin, splitOnChar_append_sep c x _ hx,
        ih (fun hcontr => List.noConfusion hcontr) (fun p hp => h p (List.mem_cons_of_mem _ hp))]

theorem mem_mapIdxFrom (f : Nat → List Char → List Char) (i : Nat)
    (ls : List (List Char)) (p : List Char) (hp : p ∈ mapIdxFrom f i ls) :
    ∃ j l, l ∈ ls ∧ p = f j l := by
  induction ls generalizing i with
  | nil => simp [mapIdxFrom] at hp
  | cons a as ih =>
    rw [mapIdxFrom] at hp
    rcases List.mem_cons.mp hp with h1 | h1
    · exact ⟨i, a, List.mem_cons_self _ _, h1⟩
    · obtain ⟨j, l, hl, he⟩ := ih (i + 1) h1
      exact ⟨j, l, List.mem_cons_of_mem _ hl, he⟩

theorem mapIdxFrom_ne_nil (f : Nat → List Char → List Char) (i : Nat)
    (ls : List (List Char)) (h : ls ≠ []) : mapIdxFrom f i ls ≠ [] := by
  cases ls with
  | nil => exact absurd rfl h
  | cons a as => simp [mapIdxFrom]

/-- The splitLines image of `applyIndent`: each line of the payload gets
the indent as a prefix, except an empty final line. -/
theorem applyIndent_splitLines (txt ind : List Char) (hind : ind ≠ [])
    (hnl : '\n' ∉ ind) :
    splitLines (applyIndent txt ind) =
      mapIdxFrom (fun i line =>
        if line.length > 0 || i < (splitLines txt).length - 1 then ind ++ line else line)
        0 (splitLines txt) := by
  rw [applyIndent, if_neg hind, joinLines, splitLines]
  apply splitOnChar_joinSep
  · exact mapIdxFrom_ne_nil _ _ _ (splitOnChar_ne_nil '\n' txt)
  · intro p hp
    obtain ⟨j, l, hl, he⟩ := mem_mapIdxFrom _ _ _ p hp
    subst he
    have hlnl : '\n' ∉ l := not_mem_of_mem_splitOnChar '\n' txt l hl
    by_cases hcond : l.length > 0 ∨ j < (splitLines txt).length - 1
    · rw [if_pos (by simpa using hcond)]
      intro hmem
      rcases List.mem_append.mp hmem with h1 | h1
      · exact hnl h1
      · exact hlnl h1
    · rw [if_neg (by simpa using hcond)]
      exact hlnl

/-- C6.  With `indent := true` and a non-empty region indent, the
injection text is re-indented line by line — every payload line receives
the region indent as a prefix except an empty final line produced by a
terminating newline — and with `newline := true` exactly one `'\n'` is
then appended when (and only when) the indented text does not already end
in one.  A two-line payload with a trailing newline, indented by two
spaces, gets both lines prefixed by exactly `"  "` and its final empty
line left unprefixed. -/
theorem applyIndent_newline_spec :
    (∀ txt ind, ind ≠ [] → '\n' ∉ ind →
      splitLines (applyIndent txt ind) =
        mapIdxFrom (fun i line =>
          if line.length > 0 || i < (splitLines txt).length - 1 then ind ++ line else line)
          0 (splitLines txt)) ∧
    (∀ txt ind (opts : InjectContentOptions), opts.indent = true → opts.newline = true →
      ind ≠ [] → endsNl (applyIndent txt ind) = false →
      processedText txt ind opts = applyIndent txt ind ++ ['\n']) ∧
    (∀ txt ind (opts : InjectContentOptions), opts.indent = true → opts.newline = true →
      ind ≠ [] → endsNl (applyIndent txt ind) = true →
      processedText txt ind opts = applyIndent txt ind) ∧
    applyIndent ("x\ny\n").data ("  ").data = ("  x\n  y\n").data ∧
    processedText ("x\ny\n").data ("  ").data ⟨InjPosition.pend, true, true⟩ =
      ("  x\n  y\n").data ∧
    processedText ("x\ny").data ("  ").data ⟨InjPosition.pend, true, true⟩ =
      ("  x\n  y\n").data := by
  refine ⟨applyIndent_splitLines, ?_, ?_, by rfl, by rfl, by rfl⟩
  · intro txt ind opts hio hno hind hends
    simp [processedText, hio, hno, hind, hends]
  · intro txt ind opts hio hno hind hends
    simp [processedText, hio, hno, hind, hends]

/-- Witness for C6 at a concrete two-line payload and indent. -/
theorem applyIndent_newline_spec_witness :
    splitLines (applyIndent ("x\ny\n").data ("  ").data) =
      mapIdxFrom (fun i line =>
        if line.length > 0 || i < (splitLines ("x\ny\n").data).length - 1
        then ("  ").data ++ line else line)
        0 (splitLines ("x\ny\n").data) :=
  applyIndent_newline_spec.1 ("x\ny\n").data ("  ").data (by decide) (by decide)

theorem processSingleInjection_fields (render : List Char → List Char)
    (parseJson : List Char → Option Json) (fs : List (List Char × List Char))
    (projectDir : List Char) (injection : InjectionDef) (addonName : List Char)
    (tbp : Option (List Char)) :
    (processSingleInjection render parseJson fs projectDir injection addonName tbp).1.file =
      injection.file ∧
    (processSingleInjection render parseJson fs projectDir injection addonName tbp).1.marker =
      injection.marker.getD ("json").data ∧
    (processSingleInjection render parseJson fs projectDir injection addonName tbp).1.addon =
      addonName ∧
    ((processSingleInjection render parseJson fs projectDir injection addonName
        tbp).1.success = false ↔
      (processSingleInjection render parseJson fs projectDir injection addonName
        tbp).1.error.isSome) := by
  simp only [processSingleInjection]
  repeat' split
  all_goals refine ⟨rfl, rfl, rfl, ?_⟩
  all_goals simp

/-- C8.  `processInjections` is total (the model is a terminating function:
no exception escapes the processor) and returns exactly one result per
definition, in the caller-supplied order: the result list has the batch's
length, and the result paired with each definition carries that
definition's file, its marker (or the `"json"` sentinel), the attributing
addon name, and records failure exactly by `success = false` together with
an error message — every definition is processed regardless of other
definitions' failures. -/
theorem processInjections_batch (render : List Char → List Char)
    (parseJson : List Char → Option Json) (fs : List (List Char × List Char))
    (projectDir : List Char) (injections : List InjectionDef) (addonName : List Char)
    (tbp : Option (List Char)) :
    (processInjections render parseJson fs projectDir injections addonName tbp).1.length =
      injections.length ∧
    ∀ r d, (r, d) ∈ (processInjections render parseJson fs projectDir injections addonName
        tbp).1.zip injections →
      r.file = d.file ∧ r.marker = d.marker.getD ("json").data ∧ r.addon = addonName ∧
      (r.success = false ↔ r.error.isSome) := by
  induction injections generalizing fs with
  | nil => simp [processInjections]
  | cons i rest ih =>
    simp only [processInjections]
    constructor
    · simp [(ih _).1]
    · intro r d hmem
      rw [List.zip_cons_cons] at hmem
      rcases List.mem_cons.mp hmem with h1 | h1
      · have h2 : r = (processSingleInjection render parseJson fs projectDir i addonName
            tbp).1 ∧ d = i := by
          simpa using h1
        obtain ⟨hr, hd⟩ := h2
        subst hr
        subst hd
        exact processSingleInjection_fields _ _ _ _ _ _ _
      · exact (ih _).2 r d h1

/-- Witness for C8 at a concrete two-element batch whose first definition
fails (missing target) while the second is still processed and succeeds. -/
theorem processInjections_batch_witness :
    (processInjections (fun s => s) (fun _ => none)
        [(("p/b.ts").data, ("// BAKERY:INJECT:r\n// BAKERY:END:r\n").data)] ("p").data
        [⟨("a.ts").data, some ("r").data, some ("x").data, none, none, none,
          InjPosition.pend, true, true⟩,
         ⟨("b.ts").data, some ("r").data, some ("x").data, none, none, none,
          InjPosition.pend, true, true⟩] ("ad").data none).1.length = 2 ∧
    (processInjections (fun s => s) (fun _ => none)
        [(("p/b.ts").data, ("// BAKERY:INJECT:r\n// BAKERY:END:r\n").data)] ("p").data
        [⟨("a.ts").data, some ("r").data, some ("x").data, none, none, none,
          InjPosition.pend, true, true⟩,
         ⟨("b.ts").data, some ("r").data, some ("x").data, none, none, none,
          InjPosition.pend, true, true⟩] ("ad").data none).1.map
      (fun r => (r.success, r.file)) = [(false, ("a.ts").data), (true, ("b.ts").data)] ∧
    (∀ (r : InjectionResult) (d : InjectionDef), (r, d) ∈ (processInjections (fun s => s) (fun _ => none)
        [(("p/b.ts").data, ("// BAKERY:INJECT:r\n// BAKERY:END:r\n").data)] ("p").data
        [⟨("a.ts").data, some ("r").data, some ("x").data, none, none, none,
          InjPosition.pend, true, true⟩,
         ⟨("b.ts").data, some ("r").data, some ("x").data, none, none, none,
          InjPosition.pend, true, true⟩] ("ad").data none).1.zip
        [⟨("a.ts").data, some ("r").data, some ("x").data, none, none, none,
          InjPosition.pend, true, true⟩,
         ⟨("b.ts").data, some ("r").data, some ("x").data, none, none, none,
          InjPosition.pend, true, true⟩] →
      r.file = d.file ∧ r.marker = d.marker.getD ("json").data ∧ r.addon = ("ad").data ∧
      (r.success = false ↔ r.error.isSome)) :=
  ⟨rfl, rfl,
   (processInjections_batch (fun s => s) (fun _ => none)
      [(("p/b.ts").data, ("// BAKERY:INJECT:r\n// BAKERY:END:r\n").data)] ("p").data
      [⟨("a.ts").data, some ("r").data, some ("x").data, none, none, none,
        InjPosition.pend, true, true⟩,
       ⟨("b.ts").data, some ("r").data, some ("x").data, none, none, none,
        InjPosition.pend, true, true⟩] ("ad").data none).2⟩

/-- C1.  For a non-JSON injection whose earlier stages succeed, if the
post-injection content contains any marker name absent from the
pre-injection content, the processor records a failure whose message is
the `MarkerSpoofingError` message naming all newly-introduced marker
names and containing the phrase "create new markers", performs no write,
and leaves the filesystem — in particular the target file — exactly as it
was before the call. -/
theorem spoofing_aborts_write (render : List Char → List Char)
    (parseJson : List Char → Option Json) (fs : List (List Char × List Char))
    (projectDir : List Char) (injection : InjectionDef) (addonName : List Char)
    (tbp : Option (List Char)) (fileContent injText newContent : List Char)
    (hjson : injection.json = none)
    (hread : mapGet fs (pathJoin projectDir injection.file) = some fileContent)
    (hresolve : resolveInjectionContent render fs injection tbp = .ok injText)
    (hinj : injectContent fileContent (injection.marker.getD ("json").data) injText
      ⟨injection.position, injection.newline, injection.indent⟩ = .ok newContent)
    (hnew : (getMarkerNames newContent).filter
      (fun m => !((getMarkerNames fileContent).contains m)) ≠ []) :
    processSingleInjection render parseJson fs projectDir injection addonName tbp =
      ({ file := injection.file
         marker := injection.marker.getD ("json").data
         addon := addonName
         success := false
         error := some (errorMessage
           (.spoofing (injection.marker.getD ("json").data)
             ((getMarkerNames newContent).filter
               (fun m => !((getMarkerNames fileContent).contains m)))) injection.file)
         linesAdded := 0 }, fs) ∧
    ∃ pre post,
      errorMessage
        (.spoofing (injection.marker.getD ("json").data)
          ((getMarkerNames newContent).filter
            (fun m => !((getMarkerNames fileContent).contains m)))) injection.file =
      pre ++ ("create new markers").data ++ post := by
  have hval : validateNoNewMarkers fileContent newContent
      (injection.marker.getD ("json").data) =
      .error (.spoofing (injection.marker.getD ("json").data)
        ((getMarkerNames newContent).filter
          (fun m => !((getMarkerNames fileContent).contains m)))) := by
    have hne : ((getMarkerNames newContent).filter
        (fun m => !((getMarkerNames fileContent).contains m))).isEmpty = false := by
      rw [Bool.eq_false_iff]
      intro htrue
      exact hnew (List.isEmpty_iff.mp htrue)
    simp only [validateNoNewMarkers, hne]
    rfl
  constructor
  · simp only [processSingleInjection, hread, hjson, hresolve, hinj, hval]
  · refine ⟨("Injection failed: Injection attempted to ").data,
      (": ").data ++ joinSep (", ").data
        ((getMarkerNames newContent).filter
          (fun m => !((getMarkerNames fileContent).contains m))) ++
      (" (file: ").data ++ injection.file ++ (", marker: ").data ++
      (injection.marker.getD ("json").data) ++ (")").data, ?_⟩
    rw [errorMessage]
    have hdetail : errDetail (.spoofing (injection.marker.getD ("json").data)
        ((getMarkerNames newContent).filter
          (fun m => !((getMarkerNames fileContent).contains m)))) =
        ("Injection attempted to create new markers: ").data ++ joinSep (", ").data
          ((getMarkerNames newContent).filter
            (fun m => !((getMarkerNames fileContent).contains m))) := rfl
    have hmk : errMarkerField (.spoofing (injection.marker.getD ("json").data)
        ((getMarkerNames newContent).filter
          (fun m => !((getMarkerNames fileContent).contains m)))) =
        injection.marker.getD ("json").data := rfl
    rw [hdetail, hmk]
    simp only [List.append_assoc]
    rfl

/-- Witness for C1: a literal payload carrying an `evil` marker pair is
rejected, the result records the spoofing message, and the filesystem is
returned unchanged. -/
theorem spoofing_aborts_write_witness :
    processSingleInjection (fun s => s) (fun _ => none)
      [(("p/a.ts").data, ("// BAKERY:INJECT:routes\n// BAKERY:END:routes\n").data)]
      ("p").data
      ⟨("a.ts").data, some ("routes").data,
        some ("// BAKERY:INJECT:evil\n// BAKERY:END:evil").data, none, none, none,
        InjPosition.pend, true, true⟩
      ("ad").data none =
      ({ file := ("a.ts").data
         marker := ("routes").data
         addon := ("ad").data
         success := false
         error := some (errorMessage
           (.spoofing (("routes").data) [("evil").data]) ("a.ts").data)
         linesAdded := 0 },
       [(("p/a.ts").data, ("// BAKERY:INJECT:routes\n// BAKERY:END:routes\n").data)]) ∧
    ∃ pre post,
      errorMessage (.spoofing (("routes").data) [("evil").data]) ("a.ts").data =
        pre ++ ("create new markers").data ++ post :=
  spoofing_aborts_write (fun s => s) (fun _ => none)
    [(("p/a.ts").data, ("// BAKERY:INJECT:routes\n// BAKERY:END:routes\n").data)]
    ("p").data
    ⟨("a.ts").data, some ("routes").data,
      some ("// BAKERY:INJECT:evil\n// BAKERY:END:evil").data, none, none, none,
      InjPosition.pend, true, true⟩
    ("ad").data none
    ("// BAKERY:INJECT:routes\n// BAKERY:END:routes\n").data
    ("// BAKERY:INJECT:evil\n// BAKERY:END:evil").data
    ("// BAKERY:INJECT:routes\n// BAKERY:INJECT:evil\n// BAKERY:END:evil\n// BAKERY:END:routes\n").data
    rfl rfl rfl rfl (by decide)

theorem upsertGroup_get_self (k : List Char) (m : ParsedMarker)
    (acc : List (List Char × List ParsedMarker)) :
    mapGet (upsertGroup k m acc) k = some ((mapGet acc k).getD [] ++ [m]) := by
  induction acc with
  | nil => simp [upsertGroup, mapGet]
  | cons p acc ih =>
    obtain ⟨k0, l0⟩ := p
    by_cases h0 : k0 = k
    · subst h0
      simp [upsertGroup, mapGet]
    · simp [upsertGroup, mapGet, h0, ih]

theorem upsertGroup_get_ne (k k' : List Char) (m : ParsedMarker)
    (acc : List (List Char × List ParsedMarker)) (h : k' ≠ k) :
    mapGet (upsertGroup k m acc) k' = mapGet acc k' := by
  induction acc with
  | nil => simp [upsertGroup, mapGet, Ne.symm h]
  | cons p acc ih =>
    obtain ⟨k0, l0⟩ := p
    by_cases h0 : k0 = k <;> by_cases h1 : k0 = k' <;>
      simp_all [upsertGroup, mapGet]

theorem groupStartsAux_get (ms : List ParsedMarker)
    (acc : List (List Char × List ParsedMarker)) (k : List Char) :
    mapGet (groupStartsAux acc ms) k =
      match mapGet acc k with
      | some l => some (l ++ startMarkersOf ms k)
      | none =>
        if startMarkersOf ms k = [] then none else some (startMarkersOf ms k) := by
  induction ms generalizing acc with
  | nil =>
    rw [groupStartsAux]
    cases h : mapGet acc k <;> simp [startMarkersOf]
  | cons m ms ih =>
    rw [groupStartsAux, ih]
    by_cases hk : m.kind = MKind.kstart
    · by_cases hn : m.name = k
      · rw [if_pos hk, hn, upsertGroup_get_self]
        rw [show startMarkersOf (m :: ms) k = m :: startMarkersOf ms k from by
          rw [startMarkersOf, if_pos ⟨hk, hn⟩]]
        cases h : mapGet acc k <;> simp
      · rw [if_pos hk, upsertGroup_get_ne _ _ _ _ (fun he => hn he.symm)]
        rw [show startMarkersOf (m :: ms) k = startMarkersOf ms k from by
          rw [startMarkersOf, if_neg (fun hc => hn hc.2)]]
    · rw [if_neg hk]
      rw [show startMarkersOf (m :: ms) k = startMarkersOf ms k from by
        rw [startMarkersOf, if_neg (fun hc => hk hc.1)]]

theorem upsertGroup_keys (k : List Char) (m : ParsedMarker)
    (acc : List (List Char × List ParsedMarker)) :
    (upsertGroup k m acc).map Prod.fst =
      if k ∈ acc.map Prod.fst then acc.map Prod.fst else acc.map Prod.fst ++ [k] := by
  induction acc with
  | nil => simp [upsertGroup]
  | cons p acc ih =>
    obtain ⟨k0, l0⟩ := p
    by_cases h0 : k0 = k
    · subst h0
      simp [upsertGroup]
    · simp only [upsertGroup, if_neg h0, List.map_cons, ih, List.mem_cons]
      by_cases hmem : k ∈ acc.map Prod.fst
      · simp [hmem, Ne.symm h0]
      · simp [hmem, Ne.symm h0]

theorem groupStartsAux_keys_nodup (ms : List ParsedMarker)
    (acc : List (List Char × List ParsedMarker)) (h : (acc.map Prod.fst).Nodup) :
    ((groupStartsAux acc ms).map Prod.fst).Nodup := by
  induction ms generalizing acc with
  | nil => exact h
  | cons m ms ih =>
    rw [groupStartsAux]
    by_cases hk : m.kind = MKind.kstart
    · rw [if_pos hk]
      refine ih _ ?_
      rw [upsertGroup_keys]
      by_cases hmem : m.name ∈ acc.map Prod.fst
      · rw [if_pos hmem]
        exact h
      · rw [if_neg hmem]
        refine List.Nodup.append h (List.nodup_singleton _) ?_
        intro x hx hx2
        rw [List.mem_singleton] at hx2
        subst hx2
        exact hmem hx
    · rw [if_neg hk]
      exact ih _ h

theorem mem_nodupKeys_get {α : Type} (l : List (List Char × α)) (k : List Char) (v : α)
    (hnodup : (l.map Prod.fst).Nodup) (hmem : (k, v) ∈ l) : mapGet l k = some v := by
  induction l with
  | nil => simp at hmem
  | cons p l ih =>
    obtain ⟨k0, v0⟩ := p
    simp only [List.map_cons, List.nodup_cons] at hnodup
    rcases List.mem_cons.mp hmem with h1 | h1
    · obtain ⟨hk, hv⟩ := Prod.mk.injEq .. ▸ h1
      subst hk
      subst hv
      rw [mapGet, if_pos rfl]
    · have hne : k0 ≠ k := by
        intro he
        subst he
        exact hnodup.1 (List.mem_map.mpr ⟨(k0, v), h1, rfl⟩)
      rw [mapGet, if_neg hne]
      exact ih hnodup.2 h1

theorem firstDup_none (gs : List (List Char × List ParsedMarker))
    (h : firstDup gs = none) : ∀ p ∈ gs, p.2.length ≤ 1 := by
  induction gs with
  | nil => simp
  | cons p gs ih =>
    obtain ⟨k, l⟩ := p
    rw [firstDup] at h
    intro q hq
    rcases List.mem_cons.mp hq with h1 | h1
    · subst h1
      by_cases hl : l.length > 1
      · rw [if_pos hl] at h
        exact absurd h (by simp)
      · simpa using Nat.not_lt.mp hl
    · by_cases hl : l.length > 1
      · rw [if_pos hl] at h
        exact absurd h (by simp)
      · rw [if_neg hl] at h
        exact ih h q h1

theorem firstDup_some (gs : List (List Char × List ParsedMarker)) (k : List Char)
    (l : List ParsedMarker) (h : firstDup gs = some (k, l)) :
    (k, l) ∈ gs ∧ 1 < l.length := by
  induction gs with
  | nil => simp [firstDup] at h
  | cons p gs ih =>
    obtain ⟨k0, l0⟩ := p
    rw [firstDup] at h
    by_cases hl : l0.length > 1
    · rw [if_pos hl] at h
      injection h with hp
      obtain ⟨hk, hv⟩ := Prod.mk.injEq .. ▸ hp
      subst hk
      subst hv
      exact ⟨List.mem_cons_self _ _, hl⟩
    · rw [if_neg hl] at h
      obtain ⟨hmem, hlen⟩ := ih h
      exact ⟨List.mem_cons_of_mem _ hmem, hlen⟩

theorem mapGet_mem {α : Type} (l : List (List Char × α)) (k : List Char) (v : α)
    (h : mapGet l k = some v) : (k, v) ∈ l := by
  induction l with
  | nil => simp [mapGet] at h
  | cons p l ih =>
    obtain ⟨k0, w⟩ := p
    by_cases h0 : k0 = k
    · subst h0
      rw [mapGet, if_pos rfl] at h
      obtain rfl : w = v := by injection h
      exact List.mem_cons_self _ _
    · rw [mapGet, if_neg h0] at h
      exact List.mem_cons_of_mem _ (ih h)

theorem groupStarts_get (content : List Char) (k : List Char) :
    mapGet (groupStarts (findAllMarkers content)) k =
      if startMarkersOf (findAllMarkers content) k = [] then none
      else some (startMarkersOf (findAllMarkers content) k) := by
  rw [groupStarts, groupStartsAux_get]
  rfl

/-- C4.  Whenever some name has two or more START markers in the file —
regardless of any structural (pairing) defect the file may also have —
`parseMarkers` fails with a `DuplicateMarkerError` naming a duplicated
marker together with the 1-based line numbers of all of its START
markers. -/
theorem parseMarkers_duplicate_first (content : List Char) (name0 : List Char)
    (hdup : 2 ≤ (startMarkersOf (findAllMarkers content) name0).length) :
    ∃ name, 2 ≤ (startMarkersOf (findAllMarkers content) name).length ∧
      parseMarkers content = .error (.duplicateMarker name
        ((startMarkersOf (findAllMarkers content) name).map (fun m => m.lineNumber + 1))) := by
  have hne0 : startMarkersOf (findAllMarkers content) name0 ≠ [] := by
    intro h
    rw [h] at hdup
    simp at hdup
  have hget0 : mapGet (groupStarts (findAllMarkers content)) name0 =
      some (startMarkersOf (findAllMarkers content) name0) := by
    rw [groupStarts_get, if_neg hne0]
  cases hfd : firstDup (groupStarts (findAllMarkers content)) with
  | none =>
    exfalso
    have hmem := mapGet_mem _ _ _ hget0
    have := firstDup_none _ hfd _ hmem
    simp only [] at this
    omega
  | some p =>
    obtain ⟨k, l⟩ := p
    obtain ⟨hmem, hlen⟩ := firstDup_some _ _ _ hfd
    have hnodup : ((groupStarts (findAllMarkers content)).map Prod.fst).Nodup :=
      groupStartsAux_keys_nodup _ [] (by simp)
    have hgetk := mem_nodupKeys_get _ _ _ hnodup hmem
    have hval : l = startMarkersOf (findAllMarkers content) k := by
      rw [groupStarts_get] at hgetk
      by_cases hnil : startMarkersOf (findAllMarkers content) k = []
      · rw [if_pos hnil] at hgetk
        exact absurd hgetk (by simp)
      · rw [if_neg hnil] at hgetk
        injection hgetk with h2
        exact h2.symm
    refine ⟨k, by rw [← hval]; omega, ?_⟩
    rw [parseMarkers, hfd, hval]

/-- Witness for C4 at a file that contains both a duplicated START name
and a mismatched END marker: the duplicate error wins. -/
theorem parseMarkers_duplicate_first_witness :
    ∃ name, 2 ≤ (startMarkersOf (findAllMarkers
        ("// BAKERY:INJECT:routes\n// BAKERY:END:middleware\n// BAKERY:INJECT:routes\n").data)
        name).length ∧
      parseMarkers ("// BAKERY:INJECT:routes\n// BAKERY:END:middleware\n// BAKERY:INJECT:routes\n").data =
        .error (.duplicateMarker name
          ((startMarkersOf (findAllMarkers
              ("// BAKERY:INJECT:routes\n// BAKERY:END:middleware\n// BAKERY:INJECT:routes\n").data)
              name).map (fun m => m.lineNumber + 1))) :=
  parseMarkers_duplicate_first _ ("routes").data (by decide)

theorem walkMarkers_eq_pairingSpec (ms : List ParsedMarker) (stack : List ParsedMarker)
    (regions : List (List Char × MarkerRegion)) :
    walkMarkers ms stack regions = specToExcept (pairingSpec ms stack regions) := by
  induction ms generalizing stack regions with
  | nil =>
    have hL : walkMarkers [] stack regions =
        match stack.getLast? with
        | some unclosed => .error (.unclosedStart unclosed.name (unclosed.lineNumber + 1))
        | none => .ok regions := rfl
    have hR : pairingSpec [] stack regions =
        match stack.getLast? with
        | some unclosed => .unclosedOpen unclosed.name unclosed.lineNumber
        | none => .balanced regions := rfl
    rw [hL, hR]
    cases stack.getLast? <;> rfl
  | cons m ms ih =>
    obtain ⟨kind, nm, ind, ln, si, ei, st⟩ := m
    cases kind with
    | kstart => exact ih _ _
    | kend =>
      cases stack with
      | nil => rfl
      | cons top rest =>
        have hL : walkMarkers (⟨MKind.kend, nm, ind, ln, si, ei, st⟩ :: ms)
            (top :: rest) regions =
            if top.name = nm then
              walkMarkers ms rest (mapSet regions nm
                ⟨nm, top.lineNumber, ln, top.lineEndIndex + 1, si, top.indent, top.style⟩)
            else .error (.mismatchedEnd top.name (top.lineNumber + 1) nm (ln + 1)) := rfl
        have hR : pairingSpec (⟨MKind.kend, nm, ind, ln, si, ei, st⟩ :: ms)
            (top :: rest) regions =
            if top.name = nm then
              pairingSpec ms rest (mapSet regions nm
                ⟨nm, top.lineNumber, ln, top.lineEndIndex + 1, si, top.indent, top.style⟩)
            else .nameMismatch top.name top.lineNumber nm ln := rfl
        rw [hL, hR]
        by_cases hname : top.name = nm
        · rw [if_pos hname, if_pos hname]
          exact ih _ _
        · rw [if_neg hname, if_neg hname]
          rfl

theorem startMarkersOf_ne_nil_mem (ms : List ParsedMarker) (k : List Char)
    (h : startMarkersOf ms k ≠ []) : k ∈ ms.map ParsedMarker.name := by
  induction ms with
  | nil => simp [startMarkersOf] at h
  | cons m ms ih =>
    rw [startMarkersOf] at h
    by_cases hc : m.kind = MKind.kstart ∧ m.name = k
    · simp only [List.map_cons]
      exact List.mem_cons.mpr (Or.inl hc.2.symm)
    · rw [if_neg hc] at h
      simp only [List.map_cons]
      exact List.mem_cons.mpr (Or.inr (ih h))

/-- C3 (amended: for files without duplicate START names).  In the absence
of duplicated START names, `parseMarkers` agrees exactly with the
specification's stack walk: it fails with the malformed-marker error for
an END on an empty stack (citing the END's 1-based line), for an END whose
name differs from the popped START's (citing both names and both 1-based
lines), or for a non-empty final stack (citing the first, outermost
unclosed START) — and otherwise returns the map of name to region. -/
theorem parseMarkers_pairing_spec (content : List Char)
    (hnodup : ∀ name ∈ (findAllMarkers content).map ParsedMarker.name,
      (startMarkersOf (findAllMarkers content) name).length ≤ 1) :
    parseMarkers content = specToExcept (pairingSpec (findAllMarkers content) [] []) := by
  have hfd : firstDup (groupStarts (findAllMarkers content)) = none := by
    cases hfd : firstDup (groupStarts (findAllMarkers content)) with
    | none => rfl
    | some p =>
      obtain ⟨k, l⟩ := p
      obtain ⟨hmem, hlen⟩ := firstDup_some _ _ _ hfd
      have hnd : ((groupStarts (findAllMarkers content)).map Prod.fst).Nodup :=
        groupStartsAux_keys_nodup _ [] (by simp)
      have hgetk := mem_nodupKeys_get _ _ _ hnd hmem
      rw [groupStarts_get] at hgetk
      by_cases hnil : startMarkersOf (findAllMarkers content) k = []
      · rw [if_pos hnil] at hgetk
        exact absurd hgetk (by simp)
      · rw [if_neg hnil] at hgetk
        injection hgetk with h2
        have hk := hnodup k (startMarkersOf_ne_nil_mem _ _ hnil)
        rw [h2] at hk
        exact absurd hlen (by omega)
  simp only [parseMarkers, hfd]
  exact walkMarkers_eq_pairingSpec _ _ _

/-- Witness for C3's amended statement at a mismatched-END file without
duplicate START names. -/
theorem parseMarkers_pairing_spec_witness :
    parseMarkers ("// BAKERY:INJECT:routes\n// BAKERY:END:middleware\n").data =
      specToExcept (pairingSpec (findAllMarkers
        ("// BAKERY:INJECT:routes\n// BAKERY:END:middleware\n").data) [] []) :=
  parseMarkers_pairing_spec _ (by decide)

/-- C3, counterexample to the claim as stated: in a file whose START names
are duplicated but whose stack walk is perfectly balanced, none of the
claim's three malformed cases holds (the specification walk returns
balanced regions), yet `parseMarkers` does not return the region map — the
duplicate check precedes the structural pairing and wins. -/
theorem parseMarkers_not_only_pairing :
    pairingSpec (findAllMarkers
        ("// BAKERY:INJECT:a\n// BAKERY:END:a\n// BAKERY:INJECT:a\n// BAKERY:END:a\n").data)
      [] [] =
      .balanced [(("a").data, ⟨("a").data, 2, 3, 54, 54, [], CommentStyle.js⟩)] ∧
    parseMarkers
        ("// BAKERY:INJECT:a\n// BAKERY:END:a\n// BAKERY:INJECT:a\n// BAKERY:END:a\n").data =
      .error (.duplicateMarker ("a").data [1, 3]) :=
  ⟨by decide, rfl⟩
